import Mathlib

/-!  Verification of the MetaThinkingModels core against its specification.

The development shallowly embeds the three core modules:
  * `src/core/model_parser.py`  — tag-delimited model-file parser and directory loader
  * `src/core/llm_client.py`    — HTTP gateway retry loop and selection-response parsing
  * `src/core/query_processor.py` — the two-phase query orchestrator

Python strings are modelled as `List Char` where character-level operations
matter (the parser, fence stripping) and as Lean `String` elsewhere.  Python
floats that only ever hold exactly-representable values (retry delays) are
modelled as `ℚ`.  Fallible Python code is modelled with `Except`.
-/

namespace MTM

/-- Python `str.strip` whitespace set: space, tab, newline, carriage return,
vertical tab, form feed. -/
def isPyWs (c : Char) : Bool :=
  c = ' ' || c = '\t' || c = '\n' || c = '\r' || c = '\x0b' || c = '\x0c'

/-- Drop trailing whitespace characters. -/
def dropTrailingWs (s : List Char) : List Char :=
  (s.reverse.dropWhile isPyWs).reverse

/-- Python `str.strip()`: drop leading and trailing whitespace. -/
def pyStrip (s : List Char) : List Char :=
  dropTrailingWs (s.dropWhile isPyWs)

/-- Split `s` at the first occurrence of `pat`, returning the parts before and
after it, or `none` when `pat` does not occur.  Models Python
`s.split(pat, 1)` (which the source only indexes into after an `in` check). -/
def splitOnce (pat : List Char) : List Char → Option (List Char × List Char)
  | [] => if pat = [] then some ([], []) else none
  | c :: cs =>
    if pat.isPrefixOf (c :: cs) then some ([], (c :: cs).drop pat.length)
    else
      match splitOnce pat cs with
      | some (pre, post) => some (c :: pre, post)
      | none => none

/-- Python `pat in s` (substring containment). -/
def containsSub (pat s : List Char) : Bool :=
  (splitOnce pat s).isSome

/-- Part of `s` after the first occurrence of `pat`; only used under a
`containsSub` guard, mirroring `s.split(pat, 1)[1]`. -/
def afterFirst (pat s : List Char) : List Char :=
  match splitOnce pat s with
  | some (_, post) => post
  | none => s

/-- Part of `s` before the first occurrence of `pat`; mirrors
`s.split(pat, 1)[0]`. -/
def beforeFirst (pat s : List Char) : List Char :=
  match splitOnce pat s with
  | some (pre, _) => pre
  | none => s

/-! ## Model parser (`src/core/model_parser.py`) -/

/-- The per-line prefix stripping shared by `_extract_tag_content` and
`_extract_examples`: if the line contains `|`, keep only the part after the
first `|`, else keep the line. -/
def stripLinePrefix (line : List Char) : List Char :=
  if containsSub ['|'] line then afterFirst ['|'] line else line

/-- Opening marker `<tag>` built from a tag name. -/
def openTagOf (tag : List Char) : List Char := '<' :: tag ++ ['>']

/-- Closing marker `</tag>` built from a tag name. -/
def closeTagOf (tag : List Char) : List Char := '<' :: '/' :: tag ++ ['>']

/-- Loop body of `ModelParser._extract_tag_content`: walk the lines with an
`in_tag` flag, collecting content pieces; the closing marker stops the scan
(Python `break`). -/
def extractTagGo (openTag closeTag : List Char) :
    List (List Char) → Bool → List (List Char)
  | [], _ => []
  | line :: rest, inTag =>
    let c := stripLinePrefix line
    if containsSub openTag c then
      let after := afterFirst openTag c
      (if pyStrip after ≠ [] then [after] else []) ++ extractTagGo openTag closeTag rest true
    else if containsSub closeTag c then
      let before := beforeFirst closeTag c
      if pyStrip before ≠ [] then [before] else []
    else if inTag then
      c :: extractTagGo openTag closeTag rest inTag
    else
      extractTagGo openTag closeTag rest inTag

/-- Python `sep.join(pieces)`. -/
def joinWith (sep : List Char) : List (List Char) → List Char
  | [] => []
  | [x] => x
  | x :: y :: rest => x ++ sep ++ joinWith sep (y :: rest)

/-- `ModelParser._extract_tag_content`: collected pieces are joined with a
newline and stripped. -/
def extractTagContent (lines : List (List Char)) (tag : List Char) : List Char :=
  pyStrip (joinWith ['\n'] (extractTagGo (openTagOf tag) (closeTagOf tag) lines false))

/-- Loop body of `ModelParser._extract_examples`: accumulate the current
example's pieces; a closing marker emits the (joined, stripped) example when
non-empty and resets the accumulator. -/
def extractExamplesGo : List (List Char) → Bool → List (List Char) → List (List Char)
  | [], _, _ => []
  | line :: rest, inEx, cur =>
    let c := stripLinePrefix line
    if containsSub (openTagOf ("example".toList)) c then
      let after := afterFirst (openTagOf ("example".toList)) c
      extractExamplesGo rest true (if pyStrip after ≠ [] then [after] else [])
    else if containsSub (closeTagOf ("example".toList)) c then
      let before := beforeFirst (closeTagOf ("example".toList)) c
      let cur2 := cur ++ (if pyStrip before ≠ [] then [before] else [])
      (if cur2 ≠ [] then [pyStrip (joinWith ['\n'] cur2)] else []) ++
        extractExamplesGo rest false []
    else if inEx then
      extractExamplesGo rest true (cur ++ [c])
    else
      extractExamplesGo rest inEx cur

/-- `ModelParser._extract_examples`. -/
def extractExamples (lines : List (List Char)) : List (List Char) :=
  extractExamplesGo lines false []

/-- `ThinkingModel` dataclass: the four scalar fields plus examples. -/
structure ThinkingModel where
  id : String
  type : String
  field : String
  definition : String
  examples : List String
  deriving DecidableEq, Repr

/-- `ModelParser.load_single_model` on the lines of an already-read file:
parse each tag, then validate that the four required fields are non-empty and
the type is `solve` or `explain` (`_validate_model_data` plus
`ThinkingModel.__post_init__`). -/
def load_single_model (lines : List (List Char)) : Except String ThinkingModel :=
  let mid := String.mk (extractTagContent lines ("id".toList))
  let mtype := String.mk (extractTagContent lines ("type".toList))
  let mfield := String.mk (extractTagContent lines ("field".toList))
  let mdef := String.mk (extractTagContent lines ("define".toList))
  let mex := (extractExamples lines).map String.mk
  if mid = "" then .error "Missing or empty required field id"
  else if mtype = "" then .error "Missing or empty required field type"
  else if mfield = "" then .error "Missing or empty required field field"
  else if mdef = "" then .error "Missing or empty required field definition"
  else if mtype ≠ "solve" ∧ mtype ≠ "explain" then
    .error "Model type must be solve or explain"
  else .ok ⟨mid, mtype, mfield, mdef, mex⟩

/-- Lookup in the insertion-ordered index built by `load_all_models`
(a Python dict, modelled as an association list). -/
def alookup (k : String) : List (String × ThinkingModel) → Option ThinkingModel
  | [] => none
  | p :: rest => if p.1 = k then some p.2 else alookup k rest

/-- Loop body of `ModelParser.load_all_models`: per-file parse failures are
skipped, and a file whose id is already a key of the index is skipped
(duplicate warning), so the first successfully parsed instance wins. -/
def loadAllGo : List (Except String ThinkingModel) → List (String × ThinkingModel) →
    List (String × ThinkingModel)
  | [], acc => acc
  | .error _ :: rest, acc => loadAllGo rest acc
  | .ok m :: rest, acc =>
    if (alookup m.id acc).isSome then loadAllGo rest acc
    else loadAllGo rest (acc ++ [(m.id, m)])

/-- `ModelParser.load_all_models`, abstracted over the per-file parse
outcomes (`load_single_model` applied to each enumerated file). -/
def load_all_models (files : List (Except String ThinkingModel)) :
    List (String × ThinkingModel) :=
  loadAllGo files []

/-- The first successfully parsed model carrying a given id, in file
enumeration order — the reference description of what `load_all_models`
should keep for a duplicated id. -/
def firstOkWithId (id : String) : List (Except String ThinkingModel) → Option ThinkingModel
  | [] => none
  | .ok m :: rest => if m.id = id then some m else firstOkWithId id rest
  | .error _ :: rest => firstOkWithId id rest

/-! ## LLM gateway (`src/core/llm_client.py`) -/

/-- A Python value as produced by `json.loads` (JSON object keys are
strings; numbers that matter here are integers). -/
inductive PyValue where
  | str : String → PyValue
  | int : Int → PyValue
  | boolV : Bool → PyValue
  | noneV : PyValue
  | floatV : ℚ → PyValue
  | list : List PyValue → PyValue
  | dict : List (String × PyValue) → PyValue

/-- Python exception kinds relevant to the gateway code. -/
inductive PyExc where
  | typeError
  | keyError
  | indexError
  | valueError
  deriving DecidableEq, Repr

/-- Python `v == s` for a string `s`: only equal strings compare equal. -/
def pyEqStr (v : PyValue) (s : String) : Bool :=
  match v with
  | .str t => t = s
  | _ => false

/-- Python iteration `for x in v`: lists yield elements, strings yield
one-character strings, dicts yield their keys; other values raise
`TypeError`. -/
def pyIterate : PyValue → Except PyExc (List PyValue)
  | .list xs => .ok xs
  | .str s => .ok (s.toList.map (fun c => .str (String.mk [c])))
  | .dict kvs => .ok (kvs.map (fun kv => .str kv.1))
  | _ => .error .typeError

/-- Python slice `s[a:-b]` on a character list. -/
def pySlice (a b : Nat) (s : List Char) : List Char :=
  (s.drop a).take ((s.drop a).length - b)

/-- The fenced-code-block stripping in `request_model_selection`: strip the
response, then peel a leading triple-backtick wrapper (with or without a
`json` language tag) by slicing off the first 7 (resp. 3) and last 3
characters and stripping again. -/
def stripFences (s : List Char) : List Char :=
  let r := pyStrip s
  if ("```json".toList).isPrefixOf r then pyStrip (pySlice 7 3 r)
  else if ("```".toList).isPrefixOf r then pyStrip (pySlice 3 3 r)
  else r

/-- The filter-and-truncate step after `json.loads` in
`request_model_selection`: keep, in order, the elements of the decoded value
that equal some candidate id (a Python `in` test against the id list — only
string elements can match), then truncate to the first 3.  Iteration over a
non-iterable decoded value raises `TypeError`. -/
def selectionTail (v : PyValue) (availableIds : List String) :
    Except PyExc (List String) :=
  match pyIterate v with
  | .error e => .error e
  | .ok elems =>
    .ok ((elems.filterMap (fun m =>
      match m with
      | .str t => if t ∈ availableIds then some t else none
      | _ => none)).take 3)

/-- `request_model_selection` response handling, abstracted over the JSON
decoder (`json.loads`, whose failure is `JSONDecodeError`): strip fences,
decode, filter and truncate.  The OpenAI client catches only
`JSONDecodeError` (`catchTypeErr = false`); the Gemini client additionally
catches `TypeError` (`catchTypeErr = true`).  Both return `[]` on a caught
failure. -/
def selection_postprocess (decode : List Char → Except Unit PyValue)
    (response : List Char) (availableIds : List String) (catchTypeErr : Bool) :
    Except PyExc (List String) :=
  match decode (stripFences response) with
  | .error _ => .ok []
  | .ok v =>
    match selectionTail v availableIds with
    | .error e => if catchTypeErr then .ok [] else .error e
    | .ok l => .ok l

/-- The `RuntimeError` raised by `_make_request` after exhausting retries,
carrying the last underlying transport error. -/
structure ExhaustedError (ε : Type) where
  lastError : Option ε
  deriving DecidableEq, Repr

deriving instance DecidableEq for Except

/-- Observable trace of `_make_request`: its outcome, the number of
transport attempts made, and the sleep durations (seconds) in order. -/
structure RetryTrace (α ε : Type) where
  result : Except (ExhaustedError ε) α
  attempts : Nat
  sleeps : List ℚ
  deriving DecidableEq, Repr

/-- Loop body of `OpenAIClient._make_request`: `fuel` is the number of loop
iterations left, `attempt` the zero-indexed attempt counter.  A transport
success returns immediately; a transport failure sleeps
`retryDelay * 2 ^ attempt` unless this was the last attempt; when the loop
ends, a `RuntimeError` carrying the last error is raised. -/
def makeRequestGo (transport : Nat → Except ε α) (maxRetries : Nat) (retryDelay : ℚ) :
    Nat → Nat → Option ε → RetryTrace α ε
  | 0, _, lastErr => ⟨.error ⟨lastErr⟩, 0, []⟩
  | fuel + 1, attempt, _ =>
    match transport attempt with
    | .ok r => ⟨.ok r, 1, []⟩
    | .error e =>
      let t := makeRequestGo transport maxRetries retryDelay fuel (attempt + 1) (some e)
      if attempt < maxRetries - 1 then
        ⟨t.result, t.attempts + 1, retryDelay * 2 ^ attempt :: t.sleeps⟩
      else
        ⟨t.result, t.attempts + 1, t.sleeps⟩

/-- `OpenAIClient._make_request`, abstracted over the transport (the
`session.post` + `raise_for_status` + `.json()` round trip, indexed by
attempt number). -/
def make_request (transport : Nat → Except ε α) (maxRetries : Nat) (retryDelay : ℚ) :
    RetryTrace α ε :=
  makeRequestGo transport maxRetries retryDelay maxRetries 0 none

/-- Python subscripting `v[k]` with a string key: a missing key on a dict
raises `KeyError`; subscripting a non-dict with a string raises
`TypeError`. -/
def getItemStr (v : PyValue) (k : String) : Except PyExc PyValue :=
  match v with
  | .dict kvs =>
    match kvs.lookup k with
    | some x => .ok x
    | none => .error .keyError
  | _ => .error .typeError

/-- Python subscripting `v[i]` with a non-negative integer index: an
out-of-range index on a list raises `IndexError`; an integer key on a dict
raises `KeyError` (JSON object keys are strings); other values raise
`TypeError`. -/
def getItemNat (v : PyValue) (i : Nat) : Except PyExc PyValue :=
  match v with
  | .list xs =>
    match xs.get? i with
    | some x => .ok x
    | none => .error .indexError
  | .dict _ => .error .keyError
  | _ => .error .typeError

/-- `OpenAIClient._extract_content`: follow
`response['choices'][0]['message']['content']`; a `KeyError` or `IndexError`
along the path is converted to `ValueError` ("Invalid API response format");
a `TypeError` is not caught and propagates. -/
def extract_content (resp : PyValue) : Except PyExc PyValue :=
  let chain :=
    getItemStr resp "choices" >>= fun c =>
    getItemNat c 0 >>= fun c0 =>
    getItemStr c0 "message" >>= fun msg =>
    getItemStr msg "content"
  match chain with
  | .ok v => .ok v
  | .error .keyError => .error .valueError
  | .error .indexError => .error .valueError
  | .error e => .error e

/-- Failure kinds of `generate_response` as seen by its caller. -/
inductive GenError (ε : Type) where
  | exhausted (last : Option ε)
  | invalidShape
  | typeErr
  deriving DecidableEq, Repr

/-- `OpenAIClient.generate_response`: run the retried request, then extract
the payload from the (successful) response body — extraction failures are
never retried. -/
def generate_response_trace (transport : Nat → Except ε PyValue)
    (maxRetries : Nat) (retryDelay : ℚ) : RetryTrace PyValue ε × Option (GenError ε) :=
  let t := make_request transport maxRetries retryDelay
  match t.result with
  | .error e => (t, some (.exhausted e.lastError))
  | .ok body =>
    match extract_content body with
    | .ok _ => (t, none)
    | .error .valueError => (t, some .invalidShape)
    | .error _ => (t, some .typeErr)

/-! ## Query orchestrator (`src/core/query_processor.py`) -/

/-- `QueryResult` dataclass. -/
structure QueryResult where
  query : String
  selected_models : List String
  solution : String
  processing_time : Option ℚ
  error : Option String
  deriving DecidableEq, Repr

/-- The record shape built by `fetch_model_data` for each resolved model. -/
structure ModelData where
  id : String
  type : String
  definition : String
  examples : List String
  deriving DecidableEq, Repr

/-- Projection used by `fetch_model_data` on each resolved model. -/
def toModelData (m : ThinkingModel) : ModelData :=
  ⟨m.id, m.type, m.definition, m.examples⟩

/-- `QueryProcessor.fetch_model_data`: iterate the repository index in
insertion order, keeping exactly the models whose id occurs in the selected
id list. -/
def fetch_model_data (models : List ThinkingModel) (modelIds : List String) :
    List ModelData :=
  (models.filter (fun m => decide (m.id ∈ modelIds))).map toModelData

/-- Fixed preamble prepended to the direct-fallback solution. -/
def fallbackPreamble : String :=
  "I'll address your query directly without using specific thinking models:\n\n"

/-- The `QueryResult` built by the top-level exception handler of
`process_query`. -/
def errorResult (query : String) (e : String) (dur : ℚ) : QueryResult :=
  ⟨query, [], "An error occurred while processing your query: " ++ e, some dur, some e⟩

/-- `QueryProcessor.process_query`, abstracted over the collaborator
behaviours: `sel` is the outcome of `phase_1_model_selection` (the gateway's
`request_model_selection` over the full index), `direct` the outcome of
`generate_response` on the raw query, `solve` the outcome of
`request_solution` on fetched records, and `dur` the elapsed time measured at
the point of return.  Every raised collaborator exception (`Except.error`,
carrying `str(e)`) is caught by the top-level handler. -/
def process_query (query : String) (models : List ThinkingModel)
    (sel : Except String (List String)) (direct : Except String String)
    (solve : List ModelData → Except String String) (dur : ℚ) : QueryResult :=
  match sel with
  | .error e => errorResult query e dur
  | .ok [] =>
    match direct with
    | .error e => errorResult query e dur
    | .ok txt => ⟨query, [], fallbackPreamble ++ txt, some dur, none⟩
  | .ok selectedModels =>
    if fetch_model_data models selectedModels = [] then
      ⟨query, selectedModels, "Selected models were not found in the database.",
        some dur, some "Model data not found"⟩
    else
      match solve (fetch_model_data models selectedModels) with
      | .error e => errorResult query e dur
      | .ok s => ⟨query, selectedModels, s, some dur, none⟩

/-- A content line of a well-formed tag block: non-empty, free of `|`,
newline and tag markers (also when newline-terminated), and whitespace-free
at both ends. -/
def cleanLine (tag c : List Char) : Prop :=
  c ≠ [] ∧ ('|' : Char) ∉ c ∧ ('\n' : Char) ∉ c ∧
  containsSub (openTagOf tag) (c ++ ['\n']) = false ∧
  containsSub (closeTagOf tag) (c ++ ['\n']) = false ∧
  c.head?.all (fun x => !isPyWs x) = true ∧
  c.getLast?.all (fun x => !isPyWs x) = true

instance (tag c : List Char) : Decidable (cleanLine tag c) := by
  unfold cleanLine
  infer_instance

/-- Simplified model of `json.loads` on the literal text `42`: Python's
decoder accepts `"42"` (yielding the integer 42) and is irrelevant
elsewhere for this counterexample. -/
def decodeInt42 : List Char → Except Unit PyValue := fun s =>
  if s = "42".toList then .ok (.int 42) else .error ()

/-- Transport stub for the C4 witness: fails twice, then succeeds. -/
def egTransport : Nat → Except String String := fun n =>
  if n = 0 then .error "e0" else if n = 1 then .error "e1" else .ok "resp"

/-- Transport stub for the C5 witness part two: succeeds immediately with a
body missing the `choices` payload path. -/
def egBadBodyTransport : Nat → Except String PyValue := fun _ =>
  .ok (.dict [("other", .int 1)])

/-! ## Helper lemmas -/

theorem alookup_append_singleton (k : String) (acc : List (String × ThinkingModel))
    (p : String × ThinkingModel) :
    alookup k (acc ++ [p]) =
      (match alookup k acc with
       | some v => some v
       | none => if p.1 = k then some p.2 else none) := by
  induction acc with
  | nil => simp [alookup]
  | cons q rest ih =>
    by_cases h : q.1 = k
    · simp [alookup, h]
    · simpa [alookup, h] using ih

theorem alookup_eq_none_iff (k : String) (acc : List (String × ThinkingModel)) :
    alookup k acc = none ↔ k ∉ acc.map Prod.fst := by
  induction acc with
  | nil => simp [alookup]
  | cons q rest ih =>
    by_cases h : q.1 = k
    · simp [alookup, h]
    · simp [alookup, h, ih, Ne.symm h]

theorem mem_keys_of_alookup_isSome (k : String) (acc : List (String × ThinkingModel))
    (h : (alookup k acc).isSome) : k ∈ acc.map Prod.fst := by
  by_contra hk
  rw [← alookup_eq_none_iff] at hk
  rw [hk] at h
  simp at h

theorem loadAllGo_lookup (files : List (Except String ThinkingModel))
    (acc : List (String × ThinkingModel)) (k : String) :
    alookup k (loadAllGo files acc) =
      (match alookup k acc with
       | some v => some v
       | none => firstOkWithId k files) := by
  induction files generalizing acc with
  | nil =>
    cases h : alookup k acc <;> simp [loadAllGo, firstOkWithId, h]
  | cons f rest ih =>
    cases f with
    | error e =>
      rw [show loadAllGo (.error e :: rest) acc = loadAllGo rest acc from rfl, ih]
      cases h : alookup k acc <;> simp [firstOkWithId, h]
    | ok m =>
      by_cases hm : (alookup m.id acc).isSome
      · rw [show loadAllGo (.ok m :: rest) acc = loadAllGo rest acc by simp [loadAllGo, hm], ih]
        cases h : alookup k acc with
        | some v => simp
        | none =>
          have hne : m.id ≠ k := by
            intro he
            rw [he, h] at hm
            simp at hm
          simp [firstOkWithId, hne]
      · rw [show loadAllGo (.ok m :: rest) acc = loadAllGo rest (acc ++ [(m.id, m)]) by
            simp [loadAllGo, hm], ih, alookup_append_singleton]
        cases h : alookup k acc with
        | some v => simp
        | none =>
          by_cases he : m.id = k
          · simp [firstOkWithId, he]
          · simp [firstOkWithId, he]

theorem loadAllGo_keys_nodup (files : List (Except String ThinkingModel))
    (acc : List (String × ThinkingModel)) (h : (acc.map Prod.fst).Nodup) :
    ((loadAllGo files acc).map Prod.fst).Nodup := by
  induction files generalizing acc with
  | nil => exact h
  | cons f rest ih =>
    cases f with
    | error e => exact ih acc h
    | ok m =>
      by_cases hm : (alookup m.id acc).isSome
      · rw [show loadAllGo (.ok m :: rest) acc = loadAllGo rest acc by simp [loadAllGo, hm]]
        exact ih acc h
      · rw [show loadAllGo (.ok m :: rest) acc = loadAllGo rest (acc ++ [(m.id, m)]) by
            simp [loadAllGo, hm]]
        refine ih _ ?_
        have hnot : m.id ∉ acc.map Prod.fst := by
          rw [← alookup_eq_none_iff]
          cases hc : alookup m.id acc with
          | none => rfl
          | some v => rw [hc] at hm; simp at hm
        simp only [List.map_append, List.map_cons, List.map_nil]
        exact List.Nodup.append h (List.nodup_singleton m.id)
          (by simpa [List.disjoint_singleton] using hnot)

theorem firstOkWithId_isSome_of_get (files : List (Except String ThinkingModel))
    (i : Nat) (m : ThinkingModel) (h : files.get? i = some (.ok m)) :
    (firstOkWithId m.id files).isSome := by
  induction files generalizing i with
  | nil => simp at h
  | cons f rest ih =>
    cases i with
    | zero =>
      simp only [List.get?] at h
      cases h
      simp [firstOkWithId]
    | succ n =>
      simp only [List.get?] at h
      cases f with
      | error e => exact ih n h
      | ok m' =>
        by_cases he : m'.id = m.id
        · simp [firstOkWithId, he]
        · simpa [firstOkWithId, he] using ih n h

/-! ## Claims about the orchestrator and the loader -/

/-- C1: for every query and every collaborator behaviour — including a raised
exception in model selection, direct generation, or solution generation —
`process_query` returns a `QueryResult` (it is a total function in this
embedding, so no exception escapes); on every path the processing time is
populated, and on every exception path the result has an empty
selected-models list, a solution string echoing the error, and the error
field populated. -/
theorem c1_process_never_raises (query : String) (models : List ThinkingModel)
    (sel : Except String (List String)) (direct : Except String String)
    (solve : List ModelData → Except String String) (dur : ℚ) :
    (process_query query models sel direct solve dur).processing_time = some dur ∧
    (∀ e, sel = .error e →
      process_query query models sel direct solve dur = errorResult query e dur) ∧
    (∀ e, sel = .ok [] → direct = .error e →
      process_query query models sel direct solve dur = errorResult query e dur) ∧
    (∀ ids e, sel = .ok ids → ids ≠ [] → fetch_model_data models ids ≠ [] →
      solve (fetch_model_data models ids) = .error e →
      process_query query models sel direct solve dur = errorResult query e dur) := by
  refine ⟨?_, ?_, ?_, ?_⟩
  · cases sel with
    | error e => rfl
    | ok l =>
      cases l with
      | nil =>
        cases direct with
        | error e => rfl
        | ok t => rfl
      | cons a as =>
        by_cases hf : fetch_model_data models (a :: as) = []
        · simp [process_query, hf]
        · cases h : solve (fetch_model_data models (a :: as)) <;>
            simp [process_query, hf, h, errorResult]
  · rintro e rfl
    rfl
  · rintro e rfl rfl
    rfl
  · rintro ids e rfl hne hfetch hsolve
    cases ids with
    | nil => exact absurd rfl hne
    | cons a as =>
      simp [process_query, hfetch, hsolve]

/-- Witness for C1 at a concrete input: a selection phase that raises. -/
theorem c1_witness :
    process_query "q" [] (.error "boom") (.ok "d") (fun _ => .ok "s") 7 =
      errorResult "q" "boom" 7 :=
  (c1_process_never_raises "q" [] (.error "boom") (.ok "d") (fun _ => .ok "s") 7).2.1
    "boom" rfl

/-- C9: when the selection phase returns an empty list, `process_query`
returns a `QueryResult` with an empty selected-models list, no error,
populated elapsed time, and a solution equal to the fixed fallback preamble
concatenated with the gateway's direct answer on the raw query. -/
theorem c9_empty_selection_fallback (query : String) (models : List ThinkingModel)
    (txt : String) (solve : List ModelData → Except String String) (dur : ℚ) :
    process_query query models (.ok []) (.ok txt) solve dur =
      ⟨query, [], fallbackPreamble ++ txt, some dur, none⟩ :=
  rfl

/-- C10: when the selection phase returns a non-empty id list of which a
non-empty subset resolves, `process_query` proceeds silently: the solution
comes from `solve` applied to exactly the resolved records (a sublist of the
repository in insertion order, with ids deduplicated whenever the repository
ids are), the result still lists every returned id, and the error field stays
unset; the records-not-found error path is taken exactly when no repository
model's id occurs in the returned list. -/
theorem c10_partial_resolution (query : String) (models : List ThinkingModel)
    (ids : List String) (direct : Except String String)
    (solve : List ModelData → Except String String) (s : String) (dur : ℚ)
    (hne : ids ≠ []) (hfetch : fetch_model_data models ids ≠ [])
    (hsolve : solve (fetch_model_data models ids) = .ok s) :
    process_query query models (.ok ids) direct solve dur =
      ⟨query, ids, s, some dur, none⟩ ∧
    (fetch_model_data models ids).Sublist (models.map toModelData) ∧
    ((models.map ThinkingModel.id).Nodup →
      ((fetch_model_data models ids).map ModelData.id).Nodup) ∧
    (fetch_model_data models ids = [] ↔ ∀ m ∈ models, m.id ∉ ids) := by
  refine ⟨?_, ?_, ?_, ?_⟩
  · cases ids with
    | nil => exact absurd rfl hne
    | cons a as =>
      simp [process_query, hfetch, hsolve]
  · exact (List.filter_sublist models).map toModelData
  · intro hnd
    have : (fetch_model_data models ids).map ModelData.id =
        (models.filter (fun m => decide (m.id ∈ ids))).map ThinkingModel.id := by
      simp [fetch_model_data, toModelData, Function.comp]
    rw [this]
    exact hnd.sublist ((List.filter_sublist models).map ThinkingModel.id)
  · constructor
    · intro h m hm hmem
      have : m ∈ models.filter (fun m => decide (m.id ∈ ids)) :=
        List.mem_filter.mpr ⟨hm, by simpa using hmem⟩
      rw [fetch_model_data, List.map_eq_nil_iff] at h
      rw [h] at this
      simp at this
    · intro h
      rw [fetch_model_data, List.map_eq_nil_iff, List.filter_eq_nil_iff]
      intro m hm
      simpa using h m hm

/-- Witness for C10 at a concrete input: ids `["b", "zz"]` of which only
`"b"` resolves in a two-model repository. -/
theorem c10_witness :
    process_query "q" [⟨"a", "solve", "*", "da", []⟩, ⟨"b", "explain", "*", "db", []⟩]
      (.ok ["b", "zz"]) (.ok "d") (fun _ => .ok "S") 5 =
      ⟨"q", ["b", "zz"], "S", some 5, none⟩ :=
  (c10_partial_resolution "q" [⟨"a", "solve", "*", "da", []⟩, ⟨"b", "explain", "*", "db", []⟩]
    ["b", "zz"] (.ok "d") (fun _ => .ok "S") "S" 5 (by decide) (by decide) rfl).1

/-- C8: when two files parse successfully and declare the same id, the index
built by `load_all_models` has exactly one entry under that id, and the entry
is the first successfully parsed model with that id (later duplicates are
skipped, never overwriting the first). -/
theorem c8_duplicate_ids_first_wins (files : List (Except String ThinkingModel))
    (i j : Nat) (ma mb : ThinkingModel) (hij : i < j)
    (hi : files.get? i = some (.ok ma)) (hj : files.get? j = some (.ok mb))
    (hid : mb.id = ma.id) :
    ((load_all_models files).map Prod.fst).count ma.id = 1 ∧
    alookup ma.id (load_all_models files) = firstOkWithId ma.id files := by
  have hlook : alookup ma.id (load_all_models files) = firstOkWithId ma.id files := by
    rw [load_all_models, loadAllGo_lookup]
    rfl
  refine ⟨?_, hlook⟩
  have hsome : (firstOkWithId ma.id files).isSome :=
    firstOkWithId_isSome_of_get files i ma hi
  have hmem : ma.id ∈ (load_all_models files).map Prod.fst := by
    apply mem_keys_of_alookup_isSome
    rw [hlook]
    exact hsome
  have hnd : ((load_all_models files).map Prod.fst).Nodup :=
    loadAllGo_keys_nodup files [] (by simp)
  exact List.count_eq_one_of_mem hnd hmem

/-- Witness for C8 at a concrete input: two parse successes sharing id `"a"`
around a parse failure; the first instance is kept. -/
theorem c8_witness :
    ((load_all_models [.ok ⟨"a", "solve", "*", "d1", []⟩, .error "bad",
        .ok ⟨"a", "explain", "*", "d2", []⟩]).map Prod.fst).count "a" = 1 ∧
    alookup "a" (load_all_models [.ok ⟨"a", "solve", "*", "d1", []⟩, .error "bad",
        .ok ⟨"a", "explain", "*", "d2", []⟩]) =
      firstOkWithId "a" [.ok ⟨"a", "solve", "*", "d1", []⟩, .error "bad",
        .ok ⟨"a", "explain", "*", "d2", []⟩] :=
  c8_duplicate_ids_first_wins _ 0 2 ⟨"a", "solve", "*", "d1", []⟩
    ⟨"a", "explain", "*", "d2", []⟩ (by decide) rfl rfl rfl

/-! ## Claims about the gateway -/

theorem filterMap_str_eq_filter (strs ids : List String) :
    ((strs.map PyValue.str).filterMap (fun m =>
      match m with
      | .str t => if t ∈ ids then some t else none
      | _ => none)) = strs.filter (fun s => decide (s ∈ ids)) := by
  induction strs with
  | nil => rfl
  | cons a rest ih =>
    by_cases h : a ∈ ids
    · simp [List.filterMap_cons, List.filter_cons, h, ih]
    · simp [List.filterMap_cons, List.filter_cons, h, ih]

/-- C2: when the (fence-stripped) selection response decodes to a JSON array
of strings, both clients return the response's ids filtered to the candidate
set — dropped ids do not reorder the survivors — and truncated to the first
3; hence at most 3 ids, all members of the candidate set, in response
order. -/
theorem c2_selection_filter_truncate (decode : List Char → Except Unit PyValue)
    (response : List Char) (ids strs : List String) (catchTypeErr : Bool)
    (hdec : decode (stripFences response) = .ok (.list (strs.map PyValue.str))) :
    selection_postprocess decode response ids catchTypeErr =
      .ok ((strs.filter (fun s => decide (s ∈ ids))).take 3) ∧
    ((strs.filter (fun s => decide (s ∈ ids))).take 3).length ≤ 3 ∧
    ∀ x ∈ (strs.filter (fun s => decide (s ∈ ids))).take 3, x ∈ ids := by
  refine ⟨?_, ?_, ?_⟩
  · rw [selection_postprocess, hdec]
    simp only [selectionTail, pyIterate]
    rw [filterMap_str_eq_filter]
  · simp only [List.length_take]
    exact min_le_left 3 (strs.filter (fun s => decide (s ∈ ids))).length
  · intro x hx
    have := List.mem_of_mem_take hx
    simpa using (List.mem_filter.mp this).2

/-- Witness for C2 at a concrete input: a five-id response over a four-id
candidate set. -/
theorem c2_witness :
    selection_postprocess
      (fun _ => .ok (.list (["x", "b", "a", "c", "q"].map PyValue.str)))
      ("resp".toList) ["a", "b", "c", "q"] false = .ok ["b", "a", "c"] ∧
    (["b", "a", "c"] : List String).length ≤ 3 ∧
    ∀ x ∈ (["b", "a", "c"] : List String), x ∈ (["a", "b", "c", "q"] : List String) := by
  have h := c2_selection_filter_truncate
    (fun _ => .ok (.list (["x", "b", "a", "c", "q"].map PyValue.str)))
    ("resp".toList) ["a", "b", "c", "q"] ["x", "b", "a", "c", "q"] false rfl
  exact ⟨h.1, by decide, by decide⟩

/-- C3 counterexample: the response `42` is not a JSON array of strings, yet
the OpenAI client (which catches only `JSONDecodeError`) does not return an
empty list — iterating the decoded integer raises a `TypeError` that
propagates to the caller. -/
theorem c3_counterexample :
    selection_postprocess decodeInt42 ("42".toList) ["a"] false = .error .typeError ∧
    selection_postprocess decodeInt42 ("42".toList) ["a"] false ≠ .ok [] := by
  decide

/-- C3 amended: when JSON decoding itself fails (`JSONDecodeError`), both
clients log and return an empty list without propagating; the Gemini client,
which also catches `TypeError`, never propagates any error from selection
post-processing; but the OpenAI client propagates the `TypeError` raised by
iterating a decoded non-iterable value (see `c3_counterexample`). -/
theorem c3_amended_decode_failure (decode : List Char → Except Unit PyValue)
    (response : List Char) (ids : List String) :
    (∀ catchTypeErr, decode (stripFences response) = .error () →
      selection_postprocess decode response ids catchTypeErr = .ok []) ∧
    (∃ l, selection_postprocess decode response ids true = .ok l) := by
  constructor
  · intro b hdec
    rw [selection_postprocess, hdec]
  · rw [selection_postprocess]
    cases decode (stripFences response) with
    | error e => exact ⟨[], rfl⟩
    | ok v =>
      cases h : selectionTail v ids with
      | error e => exact ⟨[], by simp [h]⟩
      | ok l => exact ⟨l, by simp [h]⟩

/-- Witness for C3 amended: a response the decoder rejects yields `[]` from
the OpenAI client. -/
theorem c3_witness :
    selection_postprocess decodeInt42 ("xx".toList) ["a"] false = .ok [] :=
  (c3_amended_decode_failure decodeInt42 ("xx".toList) ["a"]).1 false rfl

/-- C4: with `max_retries = 3` and base delay `d`, a transport failing on
attempts 0 and 1 and succeeding on attempt 2 yields exactly 3 attempts,
sleeps of `d * 2 ^ 0` then `d * 2 ^ 1` between attempts, and the third
attempt's result; with `d = 1` the sleeps are 1s then 2s. -/
theorem c4_retry_backoff {ε α : Type} (transport : Nat → Except ε α)
    (e0 e1 : ε) (r : α) (d : ℚ)
    (h0 : transport 0 = .error e0) (h1 : transport 1 = .error e1)
    (h2 : transport 2 = .ok r) :
    make_request transport 3 d = ⟨.ok r, 3, [d * 2 ^ 0, d * 2 ^ 1]⟩ ∧
    make_request transport 3 1 = ⟨.ok r, 3, [1, 2]⟩ := by
  constructor
  · simp [make_request, makeRequestGo, h0, h1, h2]
  · simp [make_request, makeRequestGo, h0, h1, h2]

/-- Witness for C4 at a concrete transport stub. -/
theorem c4_witness :
    make_request egTransport 3 1 = ⟨.ok "resp", 3, [1, 2]⟩ :=
  (c4_retry_backoff egTransport "e0" "e1" "resp" 1 rfl rfl rfl).2

/-- C5: a transport failing on every attempt with `max_retries = 2` makes
exactly 2 attempts and then fails with the retry-exhaustion error carrying
the last underlying transport error; and a transport-level success whose
body lacks the expected payload path is not retried — `generate_response`
fails with the invalid-shape error after a single transport round trip and
no sleeps. -/
theorem c5_exhaustion_and_no_shape_retry {ε : Type} (transport : Nat → Except ε PyValue)
    (e0 e1 : ε) (body : PyValue) (maxRetries : Nat) (d : ℚ) :
    (transport 0 = .error e0 → transport 1 = .error e1 →
      make_request transport 2 d = ⟨.error ⟨some e1⟩, 2, [d]⟩) ∧
    (transport 0 = .ok body → extract_content body = .error .valueError →
      0 < maxRetries →
      (generate_response_trace transport maxRetries d).1.attempts = 1 ∧
      (generate_response_trace transport maxRetries d).1.sleeps = [] ∧
      (generate_response_trace transport maxRetries d).2 = some .invalidShape) := by
  constructor
  · intro h0 h1
    simp [make_request, makeRequestGo, h0, h1]
  · intro hb hex hpos
    cases maxRetries with
    | zero => exact absurd hpos (by simp)
    | succ k =>
      refine ⟨?_, ?_, ?_⟩ <;>
        simp [generate_response_trace, make_request, makeRequestGo, hb, hex]

/-- Witness for C5 at concrete transport stubs: exhaustion after 2 attempts,
and a malformed success body failing after exactly 1 attempt. -/
theorem c5_witness :
    make_request (fun n => (.error (if n = 0 then "e0" else "e1") : Except String PyValue)) 2 1 =
      ⟨.error ⟨some "e1"⟩, 2, [1]⟩ ∧
    (generate_response_trace egBadBodyTransport 3 1).1.attempts = 1 ∧
    (generate_response_trace egBadBodyTransport 3 1).1.sleeps = [] ∧
    (generate_response_trace egBadBodyTransport 3 1).2 = some .invalidShape := by
  constructor
  · exact (c5_exhaustion_and_no_shape_retry
      (fun n => (.error (if n = 0 then "e0" else "e1") : Except String PyValue))
      "e0" "e1" .noneV 2 1).1 rfl rfl
  · exact (c5_exhaustion_and_no_shape_retry egBadBodyTransport "x" "x"
      (.dict [("other", .int 1)]) 3 1).2 rfl rfl (by decide)

/-! ## Parser helper lemmas -/

theorem splitOnce_append_self (pat r : List Char) (h : pat ≠ []) :
    splitOnce pat (pat ++ r) = some ([], r) := by
  cases pat with
  | nil => exact absurd rfl h
  | cons p pt =>
    have hpre : (p :: pt).isPrefixOf (p :: (pt ++ r)) = true := by
      rw [show p :: (pt ++ r) = (p :: pt) ++ r from rfl, List.isPrefixOf_iff_prefix]
      exact List.prefix_append _ _
    simp only [List.cons_append, splitOnce, List.append_eq, hpre, eq_self_iff_true, if_true]
    rw [show p :: (pt ++ r) = (p :: pt) ++ r from rfl, List.drop_left]

theorem containsSub_append_self (pat r : List Char) (h : pat ≠ []) :
    containsSub pat (pat ++ r) = true := by
  rw [containsSub, splitOnce_append_self pat r h]
  rfl

theorem afterFirst_append_self (pat r : List Char) (h : pat ≠ []) :
    afterFirst pat (pat ++ r) = r := by
  rw [afterFirst, splitOnce_append_self pat r h]

theorem beforeFirst_append_self (pat r : List Char) (h : pat ≠ []) :
    beforeFirst pat (pat ++ r) = [] := by
  rw [beforeFirst, splitOnce_append_self pat r h]

theorem splitOnce_single_of_not_mem (c : Char) (l : List Char) (h : c ∉ l) :
    splitOnce [c] l = none := by
  induction l with
  | nil => rfl
  | cons a t ih =>
    have hca : ([c].isPrefixOf (a :: t)) = false := by
      have : c ≠ a := fun he => h (he ▸ List.mem_cons_self a t)
      simp [List.isPrefixOf, this]
    have ht : c ∉ t := fun hm => h (List.mem_cons_of_mem a hm)
    simp [splitOnce, hca, ih ht]

theorem stripLinePrefix_of_not_mem (line : List Char) (h : ('|' : Char) ∉ line) :
    stripLinePrefix line = line := by
  rw [stripLinePrefix, containsSub, splitOnce_single_of_not_mem _ _ h]
  rfl

theorem splitOnce_single_at (c : Char) (num line : List Char) (h : c ∉ num) :
    splitOnce [c] (num ++ c :: line) = some (num, line) := by
  induction num with
  | nil =>
    have : [c].isPrefixOf (c :: line) = true := by simp [List.isPrefixOf]
    simp [splitOnce, this]
  | cons a t ih =>
    have hca : ([c].isPrefixOf (a :: (t ++ c :: line))) = false := by
      have : c ≠ a := fun he => h (he ▸ List.mem_cons_self a t)
      simp [List.isPrefixOf, this]
    have ht : c ∉ t := fun hm => h (List.mem_cons_of_mem a hm)
    simp [splitOnce, hca, ih ht]

theorem stripLinePrefix_prefixed (num line : List Char) (h : ('|' : Char) ∉ num) :
    stripLinePrefix (num ++ '|' :: line) = line := by
  rw [stripLinePrefix, containsSub, splitOnce_single_at '|' num line h]
  simp [afterFirst, splitOnce_single_at '|' num line h]

theorem extractTagGo_strip_congr (o c : List Char) :
    ∀ (ls₁ ls₂ : List (List Char)) (b : Bool),
      ls₁.map stripLinePrefix = ls₂.map stripLinePrefix →
      extractTagGo o c ls₁ b = extractTagGo o c ls₂ b := by
  intro ls₁
  induction ls₁ with
  | nil =>
    intro ls₂ b h
    cases ls₂ with
    | nil => rfl
    | cons x xs => simp at h
  | cons l t ih =>
    intro ls₂ b h
    cases ls₂ with
    | nil => simp at h
    | cons l₂ t₂ =>
      simp only [List.map_cons, List.cons.injEq] at h
      obtain ⟨h1, h2⟩ := h
      simp only [extractTagGo, h1, ih t₂ true h2, ih t₂ b h2]

theorem extractExamplesGo_strip_congr :
    ∀ (ls₁ ls₂ : List (List Char)) (b : Bool) (cur : List (List Char)),
      ls₁.map stripLinePrefix = ls₂.map stripLinePrefix →
      extractExamplesGo ls₁ b cur = extractExamplesGo ls₂ b cur := by
  intro ls₁
  induction ls₁ with
  | nil =>
    intro ls₂ b cur h
    cases ls₂ with
    | nil => rfl
    | cons x xs => simp at h
  | cons l t ih =>
    intro ls₂ b cur h
    cases ls₂ with
    | nil => simp at h
    | cons l₂ t₂ =>
      simp only [List.map_cons, List.cons.injEq] at h
      obtain ⟨h1, h2⟩ := h
      simp only [extractExamplesGo, h1, ih t₂ true _ h2, ih t₂ false _ h2, ih t₂ b _ h2]

theorem joinWith_cons_ne (sep c : List Char) (l : List (List Char)) (h : l ≠ []) :
    joinWith sep (c :: l) = c ++ sep ++ joinWith sep l := by
  cases l with
  | nil => exact absurd rfl h
  | cons y ys => rfl

theorem joinWith_head (sep c : List Char) (rest : List (List Char)) :
    ∃ t, joinWith sep (c :: rest) = c ++ t := by
  cases rest with
  | nil => exact ⟨[], by simp [joinWith]⟩
  | cons y ys =>
    exact ⟨sep ++ joinWith sep (y :: ys), by simp [joinWith, List.append_assoc]⟩

theorem joinWith_last (sep lastc : List Char) :
    ∀ init : List (List Char), ∃ t, joinWith sep (init ++ [lastc]) = t ++ lastc := by
  intro init
  induction init with
  | nil => exact ⟨[], by simp [joinWith]⟩
  | cons c it ih =>
    obtain ⟨t, ht⟩ := ih
    refine ⟨c ++ sep ++ t, ?_⟩
    rw [List.cons_append, joinWith_cons_ne sep c (it ++ [lastc]) (by simp), ht]
    simp [List.append_assoc]

theorem dropTrailingWs_append_nl (s : List Char) :
    dropTrailingWs (s ++ ['\n']) = dropTrailingWs s := by
  have h : isPyWs '\n' = true := by decide
  simp [dropTrailingWs, List.dropWhile, h]

theorem dropTrailingWs_append_last (s : List Char) (x : Char) (hx : isPyWs x = false) :
    dropTrailingWs (s ++ [x]) = s ++ [x] := by
  simp [dropTrailingWs, List.dropWhile, hx]

theorem joinWith_map_append_nl (cs : List (List Char)) (h : cs ≠ []) :
    joinWith ['\n'] (cs.map (fun c => c ++ ['\n'])) =
      joinWith ['\n', '\n'] cs ++ ['\n'] := by
  induction cs with
  | nil => exact absurd rfl h
  | cons c rest ih =>
    cases rest with
    | nil => simp [joinWith]
    | cons d ds =>
      rw [List.map_cons, joinWith_cons_ne _ _ _ (by simp),
        joinWith_cons_ne _ _ _ (by simp), ih (by simp)]
      simp [List.append_assoc]

theorem count_nl_joinWith (cs : List (List Char)) (hne : cs ≠ [])
    (hnl : ∀ c ∈ cs, ('\n' : Char) ∉ c) :
    (joinWith ['\n', '\n'] cs).count '\n' = 2 * (cs.length - 1) := by
  induction cs with
  | nil => exact absurd rfl hne
  | cons c rest ih =>
    cases rest with
    | nil =>
      simp [joinWith, List.count_eq_zero.mpr (hnl c (List.mem_cons_self c []))]
    | cons d ds =>
      rw [joinWith_cons_ne _ _ _ (by simp), List.count_append, List.count_append,
        ih (by simp) (fun x hx => hnl x (List.mem_cons_of_mem c hx)),
        List.count_eq_zero.mpr (hnl c (List.mem_cons_self c (d :: ds)))]
      have h2 : (['\n', '\n'] : List Char).count '\n' = 2 := by decide
      rw [h2]
      simp only [List.length_cons]
      omega

theorem not_mem_append_nl (c : List Char) (hc : ('|' : Char) ∉ c) :
    ('|' : Char) ∉ c ++ ['\n'] := by
  intro hm
  rcases List.mem_append.mp hm with h | h
  · exact hc h
  · simp at h

theorem pyStrip_nil : pyStrip [] = [] := rfl

theorem pyStrip_nl : pyStrip ['\n'] = [] := by decide

theorem extractTagGo_clean (tag : List Char) (cs : List (List Char))
    (hbc : ('|' : Char) ∉ closeTagOf tag)
    (hoc : containsSub (openTagOf tag) (closeTagOf tag ++ ['\n']) = false)
    (hcs : ∀ c ∈ cs, cleanLine tag c) :
    extractTagGo (openTagOf tag) (closeTagOf tag)
      (cs.map (fun c => c ++ ['\n']) ++ [closeTagOf tag ++ ['\n']]) true =
      cs.map (fun c => c ++ ['\n']) := by
  induction cs with
  | nil =>
    have hstrip : stripLinePrefix (closeTagOf tag ++ ['\n']) = closeTagOf tag ++ ['\n'] :=
      stripLinePrefix_of_not_mem _ (not_mem_append_nl _ hbc)
    have hcont : containsSub (closeTagOf tag) (closeTagOf tag ++ ['\n']) = true :=
      containsSub_append_self _ _ (by simp [closeTagOf])
    have hbefore : beforeFirst (closeTagOf tag) (closeTagOf tag ++ ['\n']) = [] :=
      beforeFirst_append_self _ _ (by simp [closeTagOf])
    simp [extractTagGo, hstrip, hoc, hcont, hbefore, pyStrip_nil]
  | cons c rest ih =>
    obtain ⟨hcne, hbar, hnl, hopen, hclose, hhd, hlst⟩ := hcs c (List.mem_cons_self c rest)
    have hstrip : stripLinePrefix (c ++ ['\n']) = c ++ ['\n'] :=
      stripLinePrefix_of_not_mem _ (not_mem_append_nl _ hbar)
    have ihr := ih (fun x hx => hcs x (List.mem_cons_of_mem c hx))
    simp only [List.map_cons, List.cons_append, List.append_eq, extractTagGo, hstrip,
      hopen, hclose, Bool.false_eq_true, if_false, if_true, ihr]

theorem extractTagGo_full (tag : List Char) (cs : List (List Char))
    (hbo : ('|' : Char) ∉ openTagOf tag) (hbc : ('|' : Char) ∉ closeTagOf tag)
    (hoc : containsSub (openTagOf tag) (closeTagOf tag ++ ['\n']) = false)
    (hcs : ∀ c ∈ cs, cleanLine tag c) :
    extractTagGo (openTagOf tag) (closeTagOf tag)
      ((openTagOf tag ++ ['\n']) :: cs.map (fun c => c ++ ['\n']) ++
        [closeTagOf tag ++ ['\n']]) false =
      cs.map (fun c => c ++ ['\n']) := by
  have hstrip : stripLinePrefix (openTagOf tag ++ ['\n']) = openTagOf tag ++ ['\n'] :=
    stripLinePrefix_of_not_mem _ (not_mem_append_nl _ hbo)
  have hcont : containsSub (openTagOf tag) (openTagOf tag ++ ['\n']) = true :=
    containsSub_append_self _ _ (by simp [openTagOf])
  have hafter : afterFirst (openTagOf tag) (openTagOf tag ++ ['\n']) = ['\n'] :=
    afterFirst_append_self _ _ (by simp [openTagOf])
  have hrest := extractTagGo_clean tag cs hbc hoc hcs
  simp only [List.cons_append, List.append_eq, extractTagGo, hstrip, hcont, hafter,
    pyStrip_nl, ne_eq, not_true_eq_false, if_false, if_true, List.nil_append, hrest]

theorem pyStrip_clean_join (cs : List (List Char)) (hne : cs ≠ [])
    (hall : ∀ c ∈ cs, c ≠ [] ∧ c.head?.all (fun x => !isPyWs x) = true ∧
      c.getLast?.all (fun x => !isPyWs x) = true) :
    pyStrip (joinWith ['\n', '\n'] cs ++ ['\n']) = joinWith ['\n', '\n'] cs := by
  cases cs with
  | nil => exact absurd rfl hne
  | cons c rest =>
    obtain ⟨hcne, hhd, -⟩ := hall c (List.mem_cons_self c rest)
    cases c with
    | nil => exact absurd rfl hcne
    | cons a t =>
      have ha : isPyWs a = false := by simpa using hhd
      obtain ⟨u, hu⟩ := joinWith_head ['\n', '\n'] (a :: t) rest
      rw [pyStrip]
      have h1 : ((joinWith ['\n', '\n'] ((a :: t) :: rest)) ++ ['\n']).dropWhile isPyWs =
          (joinWith ['\n', '\n'] ((a :: t) :: rest)) ++ ['\n'] := by
        rw [hu]
        simp [List.cons_append, List.dropWhile_cons, ha]
      rw [h1, dropTrailingWs_append_nl]
      rcases List.eq_nil_or_concat ((a :: t) :: rest) with hcontra | ⟨init, lastc, hsplit⟩
      · exact absurd hcontra (by simp)
      · simp only [List.concat_eq_append] at hsplit
        have hlmem : lastc ∈ (a :: t) :: rest := by
          rw [hsplit]
          exact List.mem_append.mpr (Or.inr (by simp))
        obtain ⟨hlne, -, hll⟩ := hall lastc hlmem
        rcases List.eq_nil_or_concat lastc with rfl | ⟨l0, x, hlc⟩
        · exact absurd rfl hlne
        · simp only [List.concat_eq_append] at hlc
          subst hlc
          have hx : isPyWs x = false := by
            simpa [List.getLast?_concat, List.concat_eq_append] using hll
          obtain ⟨t2, ht2⟩ := joinWith_last ['\n', '\n'] (l0 ++ [x]) init
          rw [hsplit, ht2, ← List.append_assoc]
          exact dropTrailingWs_append_last _ x hx

/-! ## Claims about the parser -/

/-- C6 counterexample: on a well-formed model file whose `<define>` block
spans two content lines (`foo`, `bar`), the parser keeps each line's trailing
newline and joins lines with an extra newline, producing `"foo\n\nbar"` —
two internal line breaks where the claim demands exactly one (k-1 for k=2)
— so the content between the markers is not preserved verbatim. -/
theorem c6_counterexample :
    load_single_model ["<id>\n".toList, "m1\n".toList, "</id>\n".toList,
      "<type>\n".toList, "solve\n".toList, "</type>\n".toList,
      "<field>\n".toList, "*\n".toList, "</field>\n".toList,
      "<define>\n".toList, "foo\n".toList, "bar\n".toList, "</define>\n".toList] =
      .ok ⟨"m1", "solve", "*", "foo\n\nbar", []⟩ ∧
    ("foo\n\nbar" : String) ≠ "foo\nbar" ∧
    ("foo\n\nbar".toList).count '\n' = 2 := by
  decide

/-- C6 amended: for a tag block whose markers sit on their own
newline-terminated lines and whose k content lines are clean (non-empty, free
of `|`, newline and tag markers, whitespace-free at both ends), the extracted
content is the content lines joined by a doubled newline — each line keeps
its own terminator and the parser joins with one more — trimmed at the block
boundaries, hence exactly 2·(k-1) internal line breaks rather than k-1. -/
theorem c6_amended_doubled_newlines (tag : List Char) (cs : List (List Char))
    (hbo : ('|' : Char) ∉ openTagOf tag) (hbc : ('|' : Char) ∉ closeTagOf tag)
    (hoc : containsSub (openTagOf tag) (closeTagOf tag ++ ['\n']) = false)
    (hne : cs ≠ []) (hcs : ∀ c ∈ cs, cleanLine tag c) :
    extractTagContent ((openTagOf tag ++ ['\n']) :: cs.map (fun c => c ++ ['\n']) ++
        [closeTagOf tag ++ ['\n']]) tag = joinWith ['\n', '\n'] cs ∧
    (joinWith ['\n', '\n'] cs).count '\n' = 2 * (cs.length - 1) := by
  constructor
  · rw [extractTagContent, extractTagGo_full tag cs hbo hbc hoc hcs,
      joinWith_map_append_nl cs hne]
    exact pyStrip_clean_join cs hne (fun c hc =>
      ⟨(hcs c hc).1, (hcs c hc).2.2.2.2.2.1, (hcs c hc).2.2.2.2.2.2⟩)
  · exact count_nl_joinWith cs hne (fun c hc => (hcs c hc).2.2.1)

/-- Witness for C6 amended at the concrete two-line `<define>` block. -/
theorem c6_amended_witness :
    extractTagContent ((openTagOf ("define".toList) ++ ['\n']) ::
        ["foo".toList, "bar".toList].map (fun c => c ++ ['\n']) ++
        [closeTagOf ("define".toList) ++ ['\n']]) ("define".toList) =
      joinWith ['\n', '\n'] ["foo".toList, "bar".toList] ∧
    (joinWith ['\n', '\n'] ["foo".toList, "bar".toList]).count '\n' =
      2 * (["foo".toList, "bar".toList].length - 1) :=
  c6_amended_doubled_newlines ("define".toList) ["foo".toList, "bar".toList]
    (by decide) (by decide) (by decide) (by decide) (by decide)

/-- C7 counterexample: a content line `a|b` carrying no line-number prefix is
split at its first `|` anyway — the parser returns `b`, so `|` characters
inside tag content are not preserved. -/
theorem c7_counterexample :
    extractTagContent ["<define>\n".toList, "a|b\n".toList, "</define>\n".toList]
      ("define".toList) = "b".toList ∧
    extractTagContent ["<define>\n".toList, "a|b\n".toList, "</define>\n".toList]
      ("define".toList) ≠ "a|b".toList := by
  decide

theorem map_strip_zipWith_prefix : ∀ (nums lines : List (List Char)),
    nums.length = lines.length →
    (∀ l ∈ lines, ('|' : Char) ∉ l) → (∀ n ∈ nums, ('|' : Char) ∉ n) →
    (List.zipWith (fun n l => n ++ '|' :: l) nums lines).map stripLinePrefix =
      lines.map stripLinePrefix := by
  intro nums
  induction nums with
  | nil =>
    intro lines hlen _ _
    cases lines with
    | nil => rfl
    | cons l lt => simp at hlen
  | cons n nt ih =>
    intro lines hlen hlines hnums
    cases lines with
    | nil => simp at hlen
    | cons l lt =>
      simp only [List.zipWith_cons_cons, List.map_cons]
      rw [stripLinePrefix_prefixed n l (hnums n (List.mem_cons_self n nt)),
        stripLinePrefix_of_not_mem l (hlines l (List.mem_cons_self l lt)),
        ih lt (by simpa using hlen)
          (fun x hx => hlines x (List.mem_cons_of_mem l hx))
          (fun x hx => hnums x (List.mem_cons_of_mem n hx))]

/-- C7 amended: every line containing `|` is split at its first `|` and only
the suffix is kept, whether or not the prefix is a line number.  Hence a file
none of whose lines contain `|` parses (tag content and examples) exactly as
the same file with a `linenum|` prefix added to every line, and its
unprefixed lines pass through unchanged; but a `|` occurring inside tag
content is not preserved (see the counterexample). -/
theorem c7_amended_prefix_insensitive (tag : List Char)
    (lines nums : List (List Char)) (hlen : nums.length = lines.length)
    (hlines : ∀ l ∈ lines, ('|' : Char) ∉ l) (hnums : ∀ n ∈ nums, ('|' : Char) ∉ n) :
    extractTagContent (List.zipWith (fun n l => n ++ '|' :: l) nums lines) tag =
      extractTagContent lines tag ∧
    extractExamples (List.zipWith (fun n l => n ++ '|' :: l) nums lines) =
      extractExamples lines ∧
    ∀ l ∈ lines, stripLinePrefix l = l := by
  have hmap := map_strip_zipWith_prefix nums lines hlen hlines hnums
  refine ⟨?_, ?_, fun l hl => stripLinePrefix_of_not_mem l (hlines l hl)⟩
  · rw [extractTagContent, extractTagContent,
      extractTagGo_strip_congr (openTagOf tag) (closeTagOf tag) _ lines false hmap]
  · rw [extractExamples, extractExamples,
      extractExamplesGo_strip_congr _ lines false [] hmap]

/-- Witness for C7 amended: a three-line `|`-free file with numeric prefixes
`1|`, `2|`, `3|` parses to the same content as without them. -/
theorem c7_amended_witness :
    extractTagContent (List.zipWith (fun n l => n ++ '|' :: l)
        ["1".toList, "2".toList, "3".toList]
        ["<define>\n".toList, "foo\n".toList, "</define>\n".toList]) ("define".toList) =
      extractTagContent ["<define>\n".toList, "foo\n".toList, "</define>\n".toList]
        ("define".toList) ∧
    extractExamples (List.zipWith (fun n l => n ++ '|' :: l)
        ["1".toList, "2".toList, "3".toList]
        ["<define>\n".toList, "foo\n".toList, "</define>\n".toList]) =
      extractExamples ["<define>\n".toList, "foo\n".toList, "</define>\n".toList] ∧
    ∀ l ∈ (["<define>\n".toList, "foo\n".toList, "</define>\n".toList] : List (List Char)),
      stripLinePrefix l = l :=
  c7_amended_prefix_insensitive ("define".toList)
    ["<define>\n".toList, "foo\n".toList, "</define>\n".toList]
    ["1".toList, "2".toList, "3".toList] (by decide) (by decide) (by decide)

end MTM
